import Mathlib

/-!
Verification of the content-aware-fill WASM wrapper
(`src/wasm/caf_wrapper.cpp`) against its specification.

The wrapper receives two pointers into the flat WASM heap (`imgPtr`,
`maskPtr`), converts the interleaved RGBA image into a planar 3-channel
CImg and the mask's red channel into a thresholded 1-channel mask, runs
the CImg `inpaint_patch` plugin in place, and writes the resulting RGB
values back to the heap through `clamp8`, leaving every alpha byte
untouched.

The WASM heap is modelled as a total function from byte addresses to
byte values.  The C++ `for` loops over `y` in `[0, height)` and `x` in
`[0, width)` are embedded as structural recursion that processes the
indices `0 .. n-1` in increasing order (the recursive call handles the
already-processed prefix, the body handles the next index).
-/

/-- The flat WASM heap: byte address to byte value. -/
abbrev Heap := Nat → Nat

/-- A planar CImg raster, indexed as `img x y c` (the C++ `img(x, y, 0, c)`). -/
abbrev PlanarImg := Nat → Nat → Nat → Nat

/-- A 1-channel CImg mask, indexed as `mask x y` (the C++ `mask(x, y, 0, 0)`). -/
abbrev MaskImg := Nat → Nat → Nat

/-- Heap store: `hupdate h i v` is `h` with byte `i` set to `v`. -/
def hupdate (h : Heap) (i v : Nat) : Heap :=
  fun j => if j = i then v else h j

/-- CImg pixel store `img(x, y, 0, c) = v` on the planar model. -/
def pupdate (img : PlanarImg) (x y c v : Nat) : PlanarImg :=
  fun x2 y2 c2 => if x2 = x ∧ y2 = y ∧ c2 = c then v else img x2 y2 c2

/-- CImg mask store `mask(x, y, 0, 0) = v` on the 1-channel model. -/
def mupdate (m : MaskImg) (x y v : Nat) : MaskImg :=
  fun x2 y2 => if x2 = x ∧ y2 = y then v else m x2 y2

/-- Function `clamp8` from the wrapper: clamp an `int` to `[0, 255]` and
cast to `uint8_t` (the cast truncates mod 256, which is exact here). -/
def clamp8 (v : Int) : Nat :=
  (max 0 (min 255 v)).toNat % 256

/-- One iteration of the wrapper's conversion loop body at pixel `(x, y)`:
reads the three color bytes at `imgPtr + (y*width + x)*4 + {0,1,2}` into the
planar image, and thresholds the mask's red byte at
`maskPtr + (y*width + x)*4` (`> 128` becomes 255, else 0). -/
def loadPixel (heap : Heap) (imgPtr maskPtr width y : Nat)
    (st : PlanarImg × MaskImg) (x : Nat) : PlanarImg × MaskImg :=
  (pupdate (pupdate (pupdate st.1
      x y 0 (heap (imgPtr + (y * width + x) * 4)))
      x y 1 (heap (imgPtr + (y * width + x) * 4 + 1)))
      x y 2 (heap (imgPtr + (y * width + x) * 4 + 2)),
   mupdate st.2 x y (if heap (maskPtr + (y * width + x) * 4) > 128 then 255 else 0))

/-- The inner conversion loop `for x in [0, n)` on row `y`. -/
def convertRow (heap : Heap) (imgPtr maskPtr width y : Nat) :
    Nat → PlanarImg × MaskImg → PlanarImg × MaskImg
  | 0, st => st
  | x + 1, st => loadPixel heap imgPtr maskPtr width y
      (convertRow heap imgPtr maskPtr width y x st) x

/-- The outer conversion loop `for y in [0, m)`, each row scanning
`x in [0, width)`. -/
def convertRows (heap : Heap) (imgPtr maskPtr width : Nat) :
    Nat → PlanarImg × MaskImg → PlanarImg × MaskImg
  | 0, st => st
  | y + 1, st => convertRow heap imgPtr maskPtr width y width
      (convertRows heap imgPtr maskPtr width y st)

/-- The wrapper's first double loop: builds the planar RGB image and the
thresholded mask from the interleaved heap bytes.  The freshly constructed
CImg cells start from 0 and every in-bounds cell is overwritten by the
loop. -/
def convert (heap : Heap) (imgPtr maskPtr width height : Nat) :
    PlanarImg × MaskImg :=
  convertRows heap imgPtr maskPtr width height
    ((fun _ _ _ => 0), (fun _ _ => 0))

/-- Error kinds of the entry-point contract. -/
inductive CafError where
  | outOfBounds
  | invalidMask
  | allocationFailure
deriving DecidableEq

/-- The in-bounds pixels left unmasked (mask value 0), in raster order. -/
def unmaskedList (mask : MaskImg) (width height : Nat) : List (Nat × Nat) :=
  ((List.range height).map (fun y =>
    ((List.range width).filter (fun x => mask x y == 0)).map (fun x => (x, y)))).flatten

/-- Modelled from the spec: the converged PatchMatch OffsetField assigns each
masked pixel a source location among the unmasked pixels, found by
seed-driven randomized search; the model selects a pseudo-random element of
the unmasked pixel list, mixing the seed, the search parameters and the
pixel coordinate.  (The real search lives in the CImg plugin `inpaint.h`,
which is part of this repository's build but not present under `src/`.) -/
def bestSource (seed : Nat) (mask : MaskImg)
    (width height patchSize iterations x y : Nat) : Nat × Nat :=
  let l := unmaskedList mask width height
  l.getD ((seed + patchSize + iterations + (y * width + x)) % l.length) (0, 0)

/-- Modelled from the spec: the Synthesizer writes, into every masked pixel,
the channel values read at that pixel's converged best-offset source
location; unmasked pixels are left unchanged. -/
def synthImage (seed : Nat) (img : PlanarImg) (mask : MaskImg)
    (width height patchSize iterations : Nat) : PlanarImg :=
  fun x y c =>
    if mask x y ≠ 0 then
      img (bestSource seed mask width height patchSize iterations x y).1
          (bestSource seed mask width height patchSize iterations x y).2 c
    else img x y c

/-- Modelled from the spec: `inpaint_patch` is the CImg plugin `inpaint.h`,
injected into the CImg struct by the build (`cimg_plugin`) but not present
under `src/`.  Following the spec's contract: invalid dimensions fail with
`OutOfBounds` before any processing; a mask leaving no unmasked source
pixel fails with `InvalidMask` before synthesis begins; otherwise masked
pixels are replaced by synthesized content and unmasked pixels are left
unchanged, deterministically given the random seed (threaded explicitly;
`patchSize` and `iterations` steer the search and are threaded through). -/
def inpaint_patch (seed : Nat) (img : PlanarImg) (mask : MaskImg)
    (width height patchSize iterations : Nat) : Except CafError PlanarImg :=
  if width = 0 ∨ height = 0 then .error .outOfBounds
  else if unmaskedList mask width height = [] then .error .invalidMask
  else .ok (synthImage seed img mask width height patchSize iterations)

/-- One iteration of the wrapper's write-back loop body at pixel `(x, y)`:
stores `clamp8` of the three planar color values to
`imgPtr + (y*width + x)*4 + {0,1,2}`; the alpha byte at offset 3 is not
written. -/
def writePixel (img2 : PlanarImg) (imgPtr width x y : Nat) (h0 : Heap) : Heap :=
  hupdate (hupdate (hupdate h0
    (imgPtr + (y * width + x) * 4) (clamp8 (img2 x y 0)))
    (imgPtr + (y * width + x) * 4 + 1) (clamp8 (img2 x y 1)))
    (imgPtr + (y * width + x) * 4 + 2) (clamp8 (img2 x y 2))

/-- The inner write-back loop `for x in [0, n)` on row `y`. -/
def writeRow (img2 : PlanarImg) (imgPtr width y : Nat) : Nat → Heap → Heap
  | 0, h0 => h0
  | x + 1, h0 => writePixel img2 imgPtr width x y
      (writeRow img2 imgPtr width y x h0)

/-- The outer write-back loop `for y in [0, m)`, each row scanning
`x in [0, width)`. -/
def writeRows (img2 : PlanarImg) (imgPtr width : Nat) : Nat → Heap → Heap
  | 0, h0 => h0
  | y + 1, h0 => writeRow img2 imgPtr width y width
      (writeRows img2 imgPtr width y h0)

/-- The wrapper's second double loop: writes the planar result back to the
heap at `imgPtr` (in place), interleaved, preserving every alpha byte. -/
def writeBack (img2 : PlanarImg) (imgPtr width height : Nat) (h0 : Heap) : Heap :=
  writeRows img2 imgPtr width height h0

/-- The `inpaintImage` entry point.  The C++ function returns `void` and
mutates the heap at `imgPtr` in place; the embedding returns the final heap
on success.  An error raised by `inpaint_patch` propagates (as a CImg
exception would) before the write-back loop runs, so on error the heap is
untouched. -/
def inpaintImage (seed : Nat) (heap : Heap) (imgPtr maskPtr : Nat)
    (width height patchSize iterations : Nat) : Except CafError Heap :=
  match inpaint_patch seed
      (convert heap imgPtr maskPtr width height).1
      (convert heap imgPtr maskPtr width height).2
      width height patchSize iterations with
  | .error e => .error e
  | .ok img2 => .ok (writeBack img2 imgPtr width height heap)

/-- The heap as observed by the caller after `inpaintImage` returns: the
written-back heap on success, the untouched input heap when the call fails
before the write-back. -/
def heapAfter (seed : Nat) (heap : Heap) (imgPtr maskPtr : Nat)
    (width height patchSize iterations : Nat) : Heap :=
  match inpaintImage seed heap imgPtr maskPtr width height patchSize iterations with
  | .error _ => heap
  | .ok h2 => h2

/-- Two's-complement wrap of the C++ 32-bit `int`. -/
def int32 (v : Int) : Int :=
  (v + 2 ^ 31) % 2 ^ 32 - 2 ^ 31

/-- Function `getBufferSize` from the wrapper: `width * height * 4`
computed in the platform `int` type (each multiplication wraps at 32 bits). -/
def getBufferSize (width height : Int) : Int :=
  int32 (int32 (width * height) * 4)

/-- The all-zero heap (used as a concrete byte buffer). -/
def zeroHeap : Heap := fun _ => 0

/-- The all-255 heap (a buffer whose mask bytes mark every pixel). -/
def fullHeap : Heap := fun _ => 255

/-- A heap that is zero on the first eight bytes and 9 beyond (agrees with
`zeroHeap` on two adjacent 1x1 RGBA buffers at addresses 0 and 4). -/
def heapHi : Heap := fun a => if a < 8 then 0 else 9

/-- A heap equal to `zeroHeap` except at address 5 (the green byte of a 1x1
mask buffer based at address 4). -/
def maskGreenHeap : Heap := fun a => if a = 5 then 200 else 0

/-! ### Store lemmas -/

theorem hupdate_at (h : Heap) (i v : Nat) : hupdate h i v i = v := by
  simp [hupdate]

theorem hupdate_ne (h : Heap) (i v a : Nat) (hne : a ≠ i) :
    hupdate h i v a = h a := by
  simp [hupdate, hne]

theorem pupdate_at (img : PlanarImg) (x y c v : Nat) :
    pupdate img x y c v x y c = v := by
  simp [pupdate]

theorem pupdate_ne (img : PlanarImg) (x y c v x2 y2 c2 : Nat)
    (hne : ¬(x2 = x ∧ y2 = y ∧ c2 = c)) :
    pupdate img x y c v x2 y2 c2 = img x2 y2 c2 := by
  simp only [pupdate, if_neg hne]

theorem mupdate_at (m : MaskImg) (x y v : Nat) : mupdate m x y v x y = v := by
  simp [mupdate]

theorem mupdate_ne (m : MaskImg) (x y v x2 y2 : Nat)
    (hne : ¬(x2 = x ∧ y2 = y)) :
    mupdate m x y v x2 y2 = m x2 y2 := by
  simp only [mupdate, if_neg hne]

/-! ### clamp8 lemmas -/

theorem clamp8_eq (v : Int) : (clamp8 v : Int) = max 0 (min 255 v) := by
  unfold clamp8
  omega

theorem clamp8_byte (n : Nat) (hn : n ≤ 255) : clamp8 (n : Int) = n := by
  have h := clamp8_eq (n : Int)
  omega

/-! ### Index arithmetic -/

theorem pix_lt (x y w h : Nat) (hx : x < w) (hy : y < h) :
    y * w + x < w * h := by
  calc y * w + x < y * w + w := by omega
    _ = (y + 1) * w := by ring
    _ ≤ h * w := Nat.mul_le_mul_right w (by omega)
    _ = w * h := Nat.mul_comm h w

theorem pix_inj (x y x2 y2 w : Nat) (hx : x < w) (hx2 : x2 < w)
    (heq : y * w + x = y2 * w + x2) : x = x2 ∧ y = y2 := by
  have hw : 0 < w := by omega
  have h1 : (x + y * w) % w = x := by
    rw [Nat.add_mul_mod_self_right, Nat.mod_eq_of_lt hx]
  have h2 : (x2 + y2 * w) % w = x2 := by
    rw [Nat.add_mul_mod_self_right, Nat.mod_eq_of_lt hx2]
  have h3 : (x + y * w) / w = y := by
    rw [Nat.add_mul_div_right _ _ hw, Nat.div_eq_of_lt hx, Nat.zero_add]
  have h4 : (x2 + y2 * w) / w = y2 := by
    rw [Nat.add_mul_div_right _ _ hw, Nat.div_eq_of_lt hx2, Nat.zero_add]
  have heq2 : x + y * w = x2 + y2 * w := by omega
  constructor
  · rw [← h1, ← h2, heq2]
  · rw [← h3, ← h4, heq2]

/-! ### Write-back loop characterization -/

theorem writePixel_at (img2 : PlanarImg) (imgPtr width x y c : Nat) (h0 : Heap)
    (hc : c < 3) :
    writePixel img2 imgPtr width x y h0 (imgPtr + (y * width + x) * 4 + c) =
      clamp8 (img2 x y c) := by
  interval_cases c <;>
    simp only [writePixel, hupdate] <;> split_ifs <;> first | rfl | omega

theorem writePixel_frame (img2 : PlanarImg) (imgPtr width x y : Nat) (h0 : Heap)
    (a : Nat) (ha : ∀ c, c < 3 → a ≠ imgPtr + (y * width + x) * 4 + c) :
    writePixel img2 imgPtr width x y h0 a = h0 a := by
  have h0' := ha 0 (by omega)
  have h1' := ha 1 (by omega)
  have h2' := ha 2 (by omega)
  simp only [writePixel, hupdate]
  split_ifs <;> omega

theorem writeRow_at (img2 : PlanarImg) (imgPtr width y : Nat) (n : Nat)
    (h0 : Heap) (x c : Nat) (hx : x < n) (hc : c < 3) :
    writeRow img2 imgPtr width y n h0 (imgPtr + (y * width + x) * 4 + c) =
      clamp8 (img2 x y c) := by
  induction n with
  | zero => omega
  | succ n ih =>
    rcases Nat.lt_succ_iff_lt_or_eq.mp hx with h | h
    · rw [writeRow, writePixel_frame]
      · exact ih h
      · intro c2 hc2
        have : y * width + x < y * width + n := by omega
        omega
    · subst h
      exact writePixel_at img2 imgPtr width x y c _ hc

theorem writeRow_frame (img2 : PlanarImg) (imgPtr width y : Nat) (n : Nat)
    (h0 : Heap) (a : Nat)
    (ha : ∀ x c, x < n → c < 3 → a ≠ imgPtr + (y * width + x) * 4 + c) :
    writeRow img2 imgPtr width y n h0 a = h0 a := by
  induction n with
  | zero => rfl
  | succ n ih =>
    rw [writeRow, writePixel_frame]
    · exact ih (fun x c hx hc => ha x c (by omega) hc)
    · exact fun c hc => ha n c (by omega) hc

theorem writeRows_at (img2 : PlanarImg) (imgPtr width : Nat) (m : Nat)
    (h0 : Heap) (x y c : Nat) (hx : x < width) (hy : y < m) (hc : c < 3) :
    writeRows img2 imgPtr width m h0 (imgPtr + (y * width + x) * 4 + c) =
      clamp8 (img2 x y c) := by
  induction m with
  | zero => omega
  | succ m ih =>
    rcases Nat.lt_succ_iff_lt_or_eq.mp hy with h | h
    · rw [writeRows, writeRow_frame]
      · exact ih h
      · intro x2 c2 hx2 hc2 heq
        have hk : y * width + x = m * width + x2 := by omega
        have h2 := pix_inj x y x2 m width hx hx2 hk
        omega
    · subst h
      rw [writeRows]
      exact writeRow_at img2 imgPtr width y width _ x c hx hc

theorem writeRows_frame (img2 : PlanarImg) (imgPtr width : Nat) (m : Nat)
    (h0 : Heap) (a : Nat)
    (ha : ∀ x y c, x < width → y < m → c < 3 →
      a ≠ imgPtr + (y * width + x) * 4 + c) :
    writeRows img2 imgPtr width m h0 a = h0 a := by
  induction m with
  | zero => rfl
  | succ m ih =>
    rw [writeRows, writeRow_frame]
    · exact ih (fun x y c hx hy hc => ha x y c hx (by omega) hc)
    · exact fun x c hx hc => ha x m c hx (by omega) hc

/-! ### Conversion loop characterization -/

theorem convertRow_img (heap : Heap) (imgPtr maskPtr width y n : Nat)
    (st : PlanarImg × MaskImg) (x0 y0 c0 : Nat) :
    (convertRow heap imgPtr maskPtr width y n st).1 x0 y0 c0 =
      if x0 < n ∧ y0 = y ∧ c0 < 3 then
        heap (imgPtr + (y * width + x0) * 4 + c0)
      else st.1 x0 y0 c0 := by
  induction n with
  | zero => simp [convertRow]
  | succ n ih =>
    rw [convertRow]
    simp only [loadPixel]
    by_cases hc2 : x0 = n ∧ y0 = y ∧ c0 = 2
    · obtain ⟨h1, h2, h3⟩ := hc2
      subst h1; subst h2; subst h3
      rw [pupdate_at, if_pos ⟨Nat.lt_succ_self _, rfl, by omega⟩]
    · rw [pupdate_ne _ _ _ _ _ _ _ _ hc2]
      by_cases hc1 : x0 = n ∧ y0 = y ∧ c0 = 1
      · obtain ⟨h1, h2, h3⟩ := hc1
        subst h1; subst h2; subst h3
        rw [pupdate_at, if_pos ⟨Nat.lt_succ_self _, rfl, by omega⟩]
      · rw [pupdate_ne _ _ _ _ _ _ _ _ hc1]
        by_cases hc0 : x0 = n ∧ y0 = y ∧ c0 = 0
        · obtain ⟨h1, h2, h3⟩ := hc0
          subst h1; subst h2; subst h3
          rw [pupdate_at, if_pos ⟨Nat.lt_succ_self _, rfl, by omega⟩]
          congr 1
        · rw [pupdate_ne _ _ _ _ _ _ _ _ hc0, ih]
          by_cases hcond : x0 < n ∧ y0 = y ∧ c0 < 3
          · rw [if_pos hcond, if_pos ⟨by omega, hcond.2.1, hcond.2.2⟩]
          · rw [if_neg hcond, if_neg ?side]
            case side =>
              rintro ⟨hlt, rfl, hc3⟩
              rcases Nat.lt_succ_iff_lt_or_eq.mp hlt with h | h
              · exact hcond ⟨h, rfl, hc3⟩
              · interval_cases c0
                · exact hc0 ⟨h, rfl, rfl⟩
                · exact hc1 ⟨h, rfl, rfl⟩
                · exact hc2 ⟨h, rfl, rfl⟩

theorem convertRow_mask (heap : Heap) (imgPtr maskPtr width y n : Nat)
    (st : PlanarImg × MaskImg) (x0 y0 : Nat) :
    (convertRow heap imgPtr maskPtr width y n st).2 x0 y0 =
      if x0 < n ∧ y0 = y then
        (if heap (maskPtr + (y * width + x0) * 4) > 128 then 255 else 0)
      else st.2 x0 y0 := by
  induction n with
  | zero => simp [convertRow]
  | succ n ih =>
    rw [convertRow]
    simp only [loadPixel]
    by_cases hxy : x0 = n ∧ y0 = y
    · obtain ⟨h1, h2⟩ := hxy
      subst h1; subst h2
      rw [mupdate_at]
      simp
    · rw [mupdate_ne _ _ _ _ _ _ hxy, ih]
      by_cases hcond : x0 < n ∧ y0 = y
      · rw [if_pos hcond,
          if_pos (show x0 < n + 1 ∧ y0 = y from ⟨by omega, hcond.2⟩)]
      · rw [if_neg hcond, if_neg ?side]
        case side =>
          rintro ⟨hlt, rfl⟩
          rcases Nat.lt_succ_iff_lt_or_eq.mp hlt with h | h
          · exact hcond ⟨h, rfl⟩
          · exact hxy ⟨h, rfl⟩

theorem convertRows_img (heap : Heap) (imgPtr maskPtr width m : Nat)
    (st : PlanarImg × MaskImg) (x0 y0 c0 : Nat) :
    (convertRows heap imgPtr maskPtr width m st).1 x0 y0 c0 =
      if x0 < width ∧ y0 < m ∧ c0 < 3 then
        heap (imgPtr + (y0 * width + x0) * 4 + c0)
      else st.1 x0 y0 c0 := by
  induction m with
  | zero => simp [convertRows]
  | succ m ih =>
    by_cases hy : y0 = m
    · subst hy
      rw [convertRows, convertRow_img, ih]
      split_ifs <;> first | rfl | omega
    · rw [convertRows, convertRow_img, ih,
        if_neg (fun h => hy h.2.1)]
      split_ifs <;> first | rfl | omega

theorem convertRows_mask (heap : Heap) (imgPtr maskPtr width m : Nat)
    (st : PlanarImg × MaskImg) (x0 y0 : Nat) :
    (convertRows heap imgPtr maskPtr width m st).2 x0 y0 =
      if x0 < width ∧ y0 < m then
        (if heap (maskPtr + (y0 * width + x0) * 4) > 128 then 255 else 0)
      else st.2 x0 y0 := by
  induction m with
  | zero => simp [convertRows]
  | succ m ih =>
    by_cases hy : y0 = m
    · subst hy
      rw [convertRows, convertRow_mask, ih]
      split_ifs <;> first | rfl | omega
    · rw [convertRows, convertRow_mask, ih,
        if_neg (fun h => hy h.2)]
      split_ifs <;> first | rfl | omega

theorem convert_img (heap : Heap) (imgPtr maskPtr width height : Nat)
    (x y c : Nat) :
    (convert heap imgPtr maskPtr width height).1 x y c =
      if x < width ∧ y < height ∧ c < 3 then
        heap (imgPtr + (y * width + x) * 4 + c)
      else 0 := by
  unfold convert
  rw [convertRows_img]

theorem convert_mask (heap : Heap) (imgPtr maskPtr width height : Nat)
    (x y : Nat) :
    (convert heap imgPtr maskPtr width height).2 x y =
      if x < width ∧ y < height then
        (if heap (maskPtr + (y * width + x) * 4) > 128 then 255 else 0)
      else 0 := by
  unfold convert
  rw [convertRows_mask]

/-! ### Entry-point characterization -/

theorem unmaskedList_eq_nil (mask : MaskImg) (width height : Nat)
    (hmask : ∀ x, x < width → ∀ y, y < height → mask x y ≠ 0) :
    unmaskedList mask width height = [] := by
  unfold unmaskedList
  rw [List.flatten_eq_nil_iff]
  intro l hl
  rw [List.mem_map] at hl
  obtain ⟨y, hy, rfl⟩ := hl
  rw [List.mem_range] at hy
  rw [List.map_eq_nil_iff, List.filter_eq_nil_iff]
  intro x hx
  rw [List.mem_range] at hx
  simp only [beq_iff_eq]
  exact hmask x hx y hy

theorem inpaintImage_oob (seed : Nat) (heap : Heap)
    (imgPtr maskPtr width height patchSize iterations : Nat)
    (hdim : width = 0 ∨ height = 0) :
    inpaintImage seed heap imgPtr maskPtr width height patchSize iterations =
      .error .outOfBounds := by
  unfold inpaintImage inpaint_patch
  rw [if_pos hdim]

theorem inpaintImage_invalid (seed : Nat) (heap : Heap)
    (imgPtr maskPtr width height patchSize iterations : Nat)
    (hdim : ¬(width = 0 ∨ height = 0))
    (hnil : unmaskedList (convert heap imgPtr maskPtr width height).2
      width height = []) :
    inpaintImage seed heap imgPtr maskPtr width height patchSize iterations =
      .error .invalidMask := by
  unfold inpaintImage inpaint_patch
  rw [if_neg hdim, if_pos hnil]

theorem inpaintImage_ok (seed : Nat) (heap : Heap)
    (imgPtr maskPtr width height patchSize iterations : Nat)
    (hdim : ¬(width = 0 ∨ height = 0))
    (hnil : ¬unmaskedList (convert heap imgPtr maskPtr width height).2
      width height = []) :
    inpaintImage seed heap imgPtr maskPtr width height patchSize iterations =
      .ok (writeBack
        (synthImage seed (convert heap imgPtr maskPtr width height).1
          (convert heap imgPtr maskPtr width height).2
          width height patchSize iterations)
        imgPtr width height heap) := by
  unfold inpaintImage inpaint_patch
  rw [if_neg hdim, if_neg hnil]

theorem heapAfter_eq (seed : Nat) (heap : Heap)
    (imgPtr maskPtr width height patchSize iterations : Nat) :
    heapAfter seed heap imgPtr maskPtr width height patchSize iterations =
      if (width = 0 ∨ height = 0) ∨
          unmaskedList (convert heap imgPtr maskPtr width height).2
            width height = [] then
        heap
      else
        writeBack
          (synthImage seed (convert heap imgPtr maskPtr width height).1
            (convert heap imgPtr maskPtr width height).2
            width height patchSize iterations)
          imgPtr width height heap := by
  unfold heapAfter
  by_cases h1 : width = 0 ∨ height = 0
  · rw [inpaintImage_oob _ _ _ _ _ _ _ _ h1, if_pos (Or.inl h1)]
  · by_cases h2 : unmaskedList (convert heap imgPtr maskPtr width height).2
        width height = []
    · rw [inpaintImage_invalid _ _ _ _ _ _ _ _ h1 h2, if_pos (Or.inr h2)]
    · rw [inpaintImage_ok _ _ _ _ _ _ _ _ h1 h2, if_neg (by tauto)]

/-- No alpha byte (interleaved offset 3 within a pixel) is ever written:
the observed heap after the call agrees with the input heap there,
whether the call succeeded or failed. -/
theorem heapAfter_alpha (seed : Nat) (heap : Heap)
    (imgPtr maskPtr width height patchSize iterations x y : Nat) :
    heapAfter seed heap imgPtr maskPtr width height patchSize iterations
      (imgPtr + (y * width + x) * 4 + 3) =
    heap (imgPtr + (y * width + x) * 4 + 3) := by
  rw [heapAfter_eq]
  split_ifs with h
  · rfl
  · unfold writeBack
    apply writeRows_frame
    intro x2 y2 c2 hx2 hy2 hc2 heq
    omega

/-! ### Agreement (dependence) lemmas -/

theorem convert_eq_of_agree (heap heap2 : Heap)
    (imgPtr maskPtr width height : Nat)
    (himg : ∀ k, k < 4 * (width * height) →
      heap (imgPtr + k) = heap2 (imgPtr + k))
    (hmask : ∀ k, k < width * height →
      heap (maskPtr + 4 * k) = heap2 (maskPtr + 4 * k)) :
    convert heap imgPtr maskPtr width height =
      convert heap2 imgPtr maskPtr width height := by
  have h1 : (convert heap imgPtr maskPtr width height).1 =
      (convert heap2 imgPtr maskPtr width height).1 := by
    funext x y c
    rw [convert_img, convert_img]
    split_ifs with h
    · obtain ⟨hx, hy, hc⟩ := h
      have hp := pix_lt x y width height hx hy
      have haddr : imgPtr + (y * width + x) * 4 + c =
          imgPtr + ((y * width + x) * 4 + c) := by omega
      rw [haddr]
      exact himg _ (by omega)
    · rfl
  have h2 : (convert heap imgPtr maskPtr width height).2 =
      (convert heap2 imgPtr maskPtr width height).2 := by
    funext x y
    rw [convert_mask, convert_mask]
    by_cases h : x < width ∧ y < height
    · rw [if_pos h, if_pos h]
      obtain ⟨hx, hy⟩ := h
      have hp := pix_lt x y width height hx hy
      have haddr : maskPtr + (y * width + x) * 4 =
          maskPtr + 4 * (y * width + x) := by omega
      rw [haddr, hmask _ hp]
    · rw [if_neg h, if_neg h]
  exact Prod.ext h1 h2

/-- If two heaps agree on the image buffer and on the red bytes of the mask
buffer, the call observes no difference: the resulting image buffers agree
byte for byte. -/
theorem heapAfter_agree (seed : Nat) (heap heap2 : Heap)
    (imgPtr maskPtr width height patchSize iterations : Nat)
    (himg : ∀ k, k < 4 * (width * height) →
      heap (imgPtr + k) = heap2 (imgPtr + k))
    (hmask : ∀ k, k < width * height →
      heap (maskPtr + 4 * k) = heap2 (maskPtr + 4 * k))
    (k : Nat) (hk : k < 4 * (width * height)) :
    heapAfter seed heap imgPtr maskPtr width height patchSize iterations
      (imgPtr + k) =
    heapAfter seed heap2 imgPtr maskPtr width height patchSize iterations
      (imgPtr + k) := by
  have hcv := convert_eq_of_agree heap heap2 imgPtr maskPtr width height himg hmask
  rw [heapAfter_eq, heapAfter_eq, hcv]
  split_ifs with h
  · exact himg k hk
  · have hwh : 0 < width * height := by omega
    have hw : 0 < width := by
      rcases Nat.eq_zero_or_pos width with h0 | h0
      · rw [h0] at hwh; simp at hwh
      · exact h0
    have hh : 0 < height := by
      rcases Nat.eq_zero_or_pos height with h0 | h0
      · rw [h0] at hwh; simp at hwh
      · exact h0
    rcases Nat.lt_or_ge (k % 4) 3 with hr | hr
    · have hq : k / 4 < width * height := by omega
      have hx : k / 4 % width < width := Nat.mod_lt _ hw
      have hy : k / 4 / width < height := by
        rw [Nat.div_lt_iff_lt_mul hw]
        have hcomm : width * height = height * width := Nat.mul_comm width height
        omega
      have hdecomp : k / 4 / width * width + k / 4 % width = k / 4 :=
        Nat.div_add_mod' (k / 4) width
      have haddr : imgPtr + k =
          imgPtr + (k / 4 / width * width + k / 4 % width) * 4 + k % 4 := by
        omega
      rw [haddr]
      unfold writeBack
      rw [writeRows_at _ _ _ _ _ _ _ _ hx hy hr,
        writeRows_at _ _ _ _ _ _ _ _ hx hy hr]
    · unfold writeBack
      rw [writeRows_frame, writeRows_frame]
      · exact himg k hk
      · intro x2 y2 c2 hx2 hy2 hc2 heq
        omega
      · intro x2 y2 c2 hx2 hy2 hc2 heq
        omega

/-! ### Claims -/

/-- C1: for every valid invocation of `inpaintImage`, every pixel whose mask
red-channel byte is at most 128 is byte-identical in the observed output to
the corresponding pixel of the input image (all four interleaved bytes of
that pixel are unchanged). -/
theorem spec_C1_unmasked_pixels_unchanged (seed : Nat) (heap : Heap)
    (imgPtr maskPtr width height patchSize iterations x y c : Nat)
    (hbytes : ∀ a, heap a ≤ 255)
    (hx : x < width) (hy : y < height) (hc : c < 4)
    (hmask : heap (maskPtr + (y * width + x) * 4) ≤ 128) :
    heapAfter seed heap imgPtr maskPtr width height patchSize iterations
      (imgPtr + (y * width + x) * 4 + c) =
    heap (imgPtr + (y * width + x) * 4 + c) := by
  rcases Nat.lt_or_ge c 3 with hc3 | hc3
  · rw [heapAfter_eq]
    split_ifs with h
    · rfl
    · unfold writeBack
      rw [writeRows_at _ _ _ _ _ _ _ _ hx hy hc3]
      simp only [synthImage]
      have hm : (convert heap imgPtr maskPtr width height).2 x y = 0 := by
        rw [convert_mask, if_pos ⟨hx, hy⟩, if_neg (by omega)]
      rw [hm, if_neg (show ¬((0 : Nat) ≠ 0) from fun hne => hne rfl),
        convert_img, if_pos ⟨hx, hy, hc3⟩, clamp8_byte _ (hbytes _)]
  · have hc4 : c = 3 := by omega
    subst hc4
    exact heapAfter_alpha seed heap imgPtr maskPtr width height
      patchSize iterations x y

theorem spec_C1_witness :
    (∀ a, zeroHeap a ≤ 255) ∧ 0 < 1 ∧ 0 < 4 ∧
      zeroHeap (100 + (0 * 1 + 0) * 4) ≤ 128 ∧
      heapAfter 0 zeroHeap 0 100 1 1 7 3 (0 + (0 * 1 + 0) * 4 + 0) =
        zeroHeap (0 + (0 * 1 + 0) * 4 + 0) :=
  ⟨fun _ => Nat.zero_le 255, by decide, by decide, by decide,
    spec_C1_unmasked_pixels_unchanged 0 zeroHeap 0 100 1 1 7 3 0 0 0
      (fun _ => Nat.zero_le 255) (by decide) (by decide) (by decide) (by decide)⟩

/-- C2: for every invocation and every pixel `(x, y)`, the alpha byte of
the observed output equals the alpha byte of the input image; the call never
writes an alpha byte, whatever the mask contains. -/
theorem spec_C2_alpha_preserved (seed : Nat) (heap : Heap)
    (imgPtr maskPtr width height patchSize iterations x y : Nat) :
    heapAfter seed heap imgPtr maskPtr width height patchSize iterations
      (imgPtr + (y * width + x) * 4 + 3) =
    heap (imgPtr + (y * width + x) * 4 + 3) :=
  heapAfter_alpha seed heap imgPtr maskPtr width height patchSize iterations x y

/-- C3: the fill mask handed to the inpainting routine is derived by
per-pixel thresholding: cell `(x, y)` is 255 iff the mask buffer's
red-channel byte at interleaved index `(y*width + x)*4` is strictly greater
than 128, and 0 otherwise. -/
theorem spec_C3_mask_threshold (heap : Heap)
    (imgPtr maskPtr width height x y : Nat)
    (hx : x < width) (hy : y < height) :
    (convert heap imgPtr maskPtr width height).2 x y =
      if heap (maskPtr + (y * width + x) * 4) > 128 then 255 else 0 := by
  rw [convert_mask, if_pos ⟨hx, hy⟩]

theorem spec_C3_witness :
    0 < 1 ∧ 0 < 1 ∧
      (convert fullHeap 0 8 1 1).2 0 0 =
        if fullHeap (8 + (0 * 1 + 0) * 4) > 128 then 255 else 0 :=
  ⟨by decide, by decide,
    spec_C3_mask_threshold fullHeap 0 8 1 1 0 0 (by decide) (by decide)⟩

/-- C4: a call with `width = 0` or `height = 0` fails with `OutOfBounds`
and returns before any processing: the heap the caller observes is exactly
the input heap. -/
theorem spec_C4_zero_dims_out_of_bounds (seed : Nat) (heap : Heap)
    (imgPtr maskPtr width height patchSize iterations : Nat)
    (hdim : width = 0 ∨ height = 0) :
    inpaintImage seed heap imgPtr maskPtr width height patchSize iterations =
        .error .outOfBounds ∧
      heapAfter seed heap imgPtr maskPtr width height patchSize iterations =
        heap := by
  refine ⟨inpaintImage_oob _ _ _ _ _ _ _ _ hdim, ?_⟩
  rw [heapAfter_eq, if_pos (Or.inl hdim)]

theorem spec_C4_witness :
    ((0 : Nat) = 0 ∨ (5 : Nat) = 0) ∧
      inpaintImage 0 zeroHeap 0 100 0 5 7 3 = .error .outOfBounds ∧
      heapAfter 0 zeroHeap 0 100 0 5 7 3 = zeroHeap :=
  ⟨Or.inl rfl, spec_C4_zero_dims_out_of_bounds 0 zeroHeap 0 100 0 5 7 3 (Or.inl rfl)⟩

/-- C5: a call whose mask marks every pixel as fill (every mask red byte
strictly above 128) fails with `InvalidMask` before synthesis begins, and
the observed heap is the untouched input heap. -/
theorem spec_C5_full_mask_invalid (seed : Nat) (heap : Heap)
    (imgPtr maskPtr width height patchSize iterations : Nat)
    (hw : 0 < width) (hh : 0 < height)
    (hmask : ∀ x, x < width → ∀ y, y < height →
      heap (maskPtr + (y * width + x) * 4) > 128) :
    inpaintImage seed heap imgPtr maskPtr width height patchSize iterations =
        .error .invalidMask ∧
      heapAfter seed heap imgPtr maskPtr width height patchSize iterations =
        heap := by
  have hnil : unmaskedList (convert heap imgPtr maskPtr width height).2
      width height = [] := by
    apply unmaskedList_eq_nil
    intro x hx y hy
    rw [convert_mask, if_pos ⟨hx, hy⟩, if_pos (hmask x hx y hy)]
    omega
  refine ⟨inpaintImage_invalid _ _ _ _ _ _ _ _ (by omega) hnil, ?_⟩
  rw [heapAfter_eq, if_pos (Or.inr hnil)]

theorem spec_C5_witness :
    0 < 1 ∧ inpaintImage 0 fullHeap 0 100 1 1 7 3 = .error CafError.invalidMask :=
  ⟨by decide,
    (spec_C5_full_mask_invalid 0 fullHeap 0 100 1 1 7 3 (by decide) (by decide)
      (fun x hx y hy => (by decide : (128 : Nat) < 255))).1⟩

/-- C6: `getBufferSize` computes `width*height*4` in the 32-bit platform
`int`: the result is always congruent to `width*height*4` modulo `2^32`,
and equals it exactly whenever the product does not overflow. -/
theorem spec_C6_buffer_size (w h : Int) :
    getBufferSize w h % 2 ^ 32 = (w * h * 4) % 2 ^ 32 ∧
      (0 ≤ w → 0 ≤ h → w * h * 4 < 2 ^ 31 → getBufferSize w h = w * h * 4) := by
  unfold getBufferSize int32
  constructor
  · generalize w * h = t
    omega
  · intro hw hh hlt
    have ht : 0 ≤ w * h := mul_nonneg hw hh
    generalize hgen : w * h = t at ht hlt ⊢
    omega

theorem spec_C6_witness :
    (0 : Int) ≤ 16 ∧ getBufferSize 16 16 = 16 * 16 * 4 :=
  ⟨by decide, (spec_C6_buffer_size 16 16).2 (by decide) (by decide) (by decide)⟩

/-- C7: the entry point is deterministic: two calls whose image and mask
buffers are byte-identical (and whose width, height, patch size, iteration
count and random seed coincide) produce byte-identical output buffers. -/
theorem spec_C7_deterministic (seed : Nat) (heap heap2 : Heap)
    (imgPtr maskPtr width height patchSize iterations : Nat)
    (himg : ∀ k, k < 4 * (width * height) →
      heap (imgPtr + k) = heap2 (imgPtr + k))
    (hmask : ∀ k, k < 4 * (width * height) →
      heap (maskPtr + k) = heap2 (maskPtr + k))
    (k : Nat) (hk : k < 4 * (width * height)) :
    heapAfter seed heap imgPtr maskPtr width height patchSize iterations
      (imgPtr + k) =
    heapAfter seed heap2 imgPtr maskPtr width height patchSize iterations
      (imgPtr + k) :=
  heapAfter_agree seed heap heap2 imgPtr maskPtr width height
    patchSize iterations himg
    (fun k2 hk2 => hmask (4 * k2) (by omega)) k hk

theorem spec_C7_witness :
    (0 : Nat) < 4 * (1 * 1) ∧
      heapAfter 0 zeroHeap 0 4 1 1 7 3 (0 + 0) =
        heapAfter 0 heapHi 0 4 1 1 7 3 (0 + 0) :=
  ⟨by decide,
    spec_C7_deterministic 0 zeroHeap heapHi 0 4 1 1 7 3
      (fun k hk => by
        simp only [zeroHeap, heapHi]
        rw [if_pos (show 0 + k < 8 by omega)])
      (fun k hk => by
        simp only [zeroHeap, heapHi]
        rw [if_pos (show 4 + k < 8 by omega)])
      0 (by decide)⟩

/-- C8: `clamp8` computes `max 0 (min 255 v)` for every int `v`, is the
identity on `[0, 255]`, and consequently the write-back loop transfers each
in-range synthesized channel value to the output buffer unchanged. -/
theorem spec_C8_clamp8 :
    (∀ v : Int, (clamp8 v : Int) = max 0 (min 255 v)) ∧
      (∀ v : Int, 0 ≤ v → v ≤ 255 → (clamp8 v : Int) = v) ∧
      (∀ (img2 : PlanarImg) (imgPtr width height : Nat) (heap : Heap)
        (x y c : Nat), x < width → y < height → c < 3 → img2 x y c ≤ 255 →
        writeBack img2 imgPtr width height heap
          (imgPtr + (y * width + x) * 4 + c) = img2 x y c) := by
  refine ⟨clamp8_eq, ?_, ?_⟩
  · intro v h0 h255
    have h := clamp8_eq v
    omega
  · intro img2 imgPtr width height heap x y c hx hy hc hb
    unfold writeBack
    rw [writeRows_at _ _ _ _ _ _ _ _ hx hy hc, clamp8_byte _ hb]

theorem spec_C8_witness :
    (clamp8 300 : Int) = 255 ∧ (clamp8 7 : Int) = 7 ∧
      writeBack (fun _ _ _ => 9) 0 1 1 zeroHeap (0 + (0 * 1 + 0) * 4 + 0) = 9 :=
  ⟨(spec_C8_clamp8.1 300).trans (by decide),
    spec_C8_clamp8.2.1 7 (by decide) (by decide),
    spec_C8_clamp8.2.2 (fun _ _ _ => 9) 0 1 1 zeroHeap 0 0 0
      (by decide) (by decide) (by decide) (by decide)⟩

/-- C9: the call mutates the image buffer in place — every byte outside the
image buffer's address range `[imgPtr, imgPtr + 4*width*height)` is
unchanged — and in particular the mask buffer, disjoint from the image
buffer, is only read: it is byte-for-byte unchanged after every call. -/
theorem spec_C9_in_place_mask_readonly (seed : Nat) (heap : Heap)
    (imgPtr maskPtr width height patchSize iterations : Nat) :
    (∀ a, a < imgPtr ∨ imgPtr + 4 * (width * height) ≤ a →
      heapAfter seed heap imgPtr maskPtr width height patchSize iterations a =
        heap a) ∧
    ((maskPtr + 4 * (width * height) ≤ imgPtr ∨
        imgPtr + 4 * (width * height) ≤ maskPtr) →
      ∀ k, k < 4 * (width * height) →
        heapAfter seed heap imgPtr maskPtr width height patchSize iterations
          (maskPtr + k) = heap (maskPtr + k)) := by
  have hframe : ∀ a, a < imgPtr ∨ imgPtr + 4 * (width * height) ≤ a →
      heapAfter seed heap imgPtr maskPtr width height patchSize iterations a =
        heap a := by
    intro a ha
    rw [heapAfter_eq]
    split_ifs with h
    · rfl
    · unfold writeBack
      apply writeRows_frame
      intro x2 y2 c2 hx2 hy2 hc2 heq
      have hp := pix_lt x2 y2 width height hx2 hy2
      omega
  exact ⟨hframe, fun hdisj k hk => hframe (maskPtr + k) (by omega)⟩

theorem spec_C9_witness :
    heapAfter 0 zeroHeap 0 100 1 1 7 3 50 = zeroHeap 50 ∧
      heapAfter 0 zeroHeap 0 100 1 1 7 3 (100 + 2) = zeroHeap (100 + 2) :=
  ⟨(spec_C9_in_place_mask_readonly 0 zeroHeap 0 100 1 1 7 3).1 50
      (Or.inr (by decide)),
    (spec_C9_in_place_mask_readonly 0 zeroHeap 0 100 1 1 7 3).2
      (Or.inr (by decide)) 2 (by decide)⟩

/-- C10: the output depends on the mask buffer only through its red-channel
bytes (interleaved indices that are multiples of 4): two calls identical
except in the mask's green, blue or alpha bytes produce identical output
buffers. -/
theorem spec_C10_mask_red_only (seed : Nat) (heap heap2 : Heap)
    (imgPtr maskPtr width height patchSize iterations : Nat)
    (himg : ∀ k, k < 4 * (width * height) →
      heap (imgPtr + k) = heap2 (imgPtr + k))
    (hmaskred : ∀ k, k < width * height →
      heap (maskPtr + 4 * k) = heap2 (maskPtr + 4 * k))
    (k : Nat) (hk : k < 4 * (width * height)) :
    heapAfter seed heap imgPtr maskPtr width height patchSize iterations
      (imgPtr + k) =
    heapAfter seed heap2 imgPtr maskPtr width height patchSize iterations
      (imgPtr + k) :=
  heapAfter_agree seed heap heap2 imgPtr maskPtr width height
    patchSize iterations himg hmaskred k hk

theorem spec_C10_witness :
    zeroHeap 5 ≠ maskGreenHeap 5 ∧
      heapAfter 0 zeroHeap 0 4 1 1 7 3 (0 + 0) =
        heapAfter 0 maskGreenHeap 0 4 1 1 7 3 (0 + 0) :=
  ⟨by decide,
    spec_C10_mask_red_only 0 zeroHeap maskGreenHeap 0 4 1 1 7 3
      (fun k hk => by
        simp only [zeroHeap, maskGreenHeap]
        rw [if_neg (show ¬0 + k = 5 by omega)])
      (fun k hk => by
        simp only [zeroHeap, maskGreenHeap]
        rw [if_neg (show ¬4 + 4 * k = 5 by omega)])
      0 (by decide)⟩
